import Mathlib

/-
  Shallow embedding of `scripts/opentitan/gdbreplay.py` (lowRISC/qemu):
  the QEMU GDB replay server.  The embedding covers the pieces the
  verified claims are about:

  * `QEMUMemoryController` (memory banks, `read`),
  * `QEMUVCPU` (trace sequence, cursor `_xpos`, `step`, `cont`,
    `_move_to`, `_get_instruction_length`, `pc`, HW breakpoints),
  * the wire-level bits of `QEMUGDBReplay` used by the claims:
    frame parsing / checksum handling of `_serve`, `_do_s`,
    `_do__z`/`_do_z`, `_do_m`, `_do_query_supported`, and the trace
    `load` path that populates the vcpus.

  Python exceptions are modelled explicitly: operations that can raise
  return `Except`/`Option`-style results, and because Python mutates
  `self` before an exception propagates, the state reached at raise
  time is part of the result where the source observes it
  (e.g. `QEMUVCPU.step` increments `_xpos` before raising).
-/

namespace GdbReplay

/-- Python `range(start, stop)` with the implicit step 1, as built by
`range(addr, addr+length)` in the source. -/
structure PyRange where
  rstart : Nat
  rstop : Nat
deriving DecidableEq, Repr

/-- Python `x in range(start, stop)` membership (step 1). -/
def PyRange.containsN (r : PyRange) (x : Nat) : Bool :=
  decide (r.rstart ≤ x) && decide (x < r.rstop)

/-- Python `range.__eq__` for step-1 ranges: two ranges are equal when
they denote the same sequence of values, so all empty ranges are equal
to each other, and non-empty step-1 ranges are equal exactly when their
`start` and `stop` coincide. -/
def pyRangeEq (a b : PyRange) : Bool :=
  if a.rstop ≤ a.rstart then decide (b.rstop ≤ b.rstart)
  else decide (¬ (b.rstop ≤ b.rstart)) && decide (a.rstart = b.rstart)
       && decide (a.rstop = b.rstop)

/-! ## Memory controller (`QEMUMemoryController`) -/

/-- A memory bank: the base address together with the stored blob.  The
source keys its `_banks` dict with `range(addr, addr+len(blob))`; the
range is recoverable from the pair so the pair is stored. -/
abbrev Bank := Nat × List Nat

/-- The Python range a bank is keyed by. -/
def bankRange (b : Bank) : PyRange := ⟨b.1, b.1 + b.2.length⟩

/-- `bank contains addr` as a proposition (`addr in rng`). -/
def bankContains (b : Bank) (x : Nat) : Prop :=
  b.1 ≤ x ∧ x < b.1 + b.2.length

instance (b : Bank) (x : Nat) : Decidable (bankContains b x) := by
  unfold bankContains; infer_instance

/-- Pairwise non-overlap of the banks (the hypothesis under which the
spec promises a unique containing bank). -/
def banksDisjoint (banks : List Bank) : Prop :=
  banks.Pairwise (fun a b => ∀ x, ¬ (bankContains a x ∧ bankContains b x))

/-- `QEMUMemoryController.read`: scan the banks in insertion order for
the first one whose range contains `addr` and return
`data[offset:offset+length]`; raise `IndexError` (modelled as
`.error ()`) when no bank contains `addr`. -/
def memRead (banks : List Bank) (addr len : Nat) : Except Unit (List Nat) :=
  match banks.find? (fun b => (bankRange b).containsN addr) with
  | some b => .ok ((b.2.drop (addr - b.1)).take len)
  | none => .error ()

/-! ## Instruction length -/

/-- Python `int.from_bytes(bs, 'little')`. -/
def intFromBytesLE : List Nat → Nat
  | [] => 0
  | b :: rest => b + 256 * intFromBytesLE rest

/-- `QEMUVCPU._get_instruction_length`: read up to 4 bytes at `pc`; on
`IndexError` (unmapped) return the default 4; otherwise 4 when the
low two bits of the little-endian value are non-zero, else 2.  The
function is total: the unmapped case never propagates an error. -/
def instrLen (banks : List Bank) (pc : Nat) : Nat :=
  match memRead banks pc 4 with
  | .error _ => 4
  | .ok bs => if intFromBytesLE bs % 4 ≠ 0 then 4 else 2

/-! ## Virtual CPU (`QEMUVCPU`) -/

/-- One trace entry `(pc, func)` as recorded by `QEMUVCPU.record`. -/
abbrev TraceEntry := Nat × Option String

/-- The mutable state of a `QEMUVCPU`: the recorded sequence `_seq`,
the cursor `_xpos` and the HW breakpoints `_hwbreaks`.  (`_regs` holds
no information beyond the PC and is reconstructed on demand.) -/
structure QEMUVCPU where
  seq : List TraceEntry
  xpos : Nat
  hwbreaks : List PyRange
deriving DecidableEq, Repr

/-- `QEMUVCPU.reset`: restart at the first recorded instruction. -/
def reset (v : QEMUVCPU) : QEMUVCPU := { v with xpos := 0 }

/-- The two `RuntimeError`s `QEMUVCPU.step` can raise. -/
inductive StepErr
  | endOfStream
  | startOfStream
deriving DecidableEq, Repr

/-- `QEMUVCPU.step`: forward (`back = false`) increments `_xpos` and
then raises `EndOfStream` when the new cursor reaches or exceeds
`len(seq)` — the increment happens before the raise, so the returned
state carries the advanced cursor.  Backward decrements when `_xpos >
0` and otherwise raises `StartOfStream` without touching the state. -/
def step (v : QEMUVCPU) (back : Bool) : QEMUVCPU × Option StepErr :=
  if !back then
    let v' := { v with xpos := v.xpos + 1 }
    (v', if v.seq.length ≤ v'.xpos then some .endOfStream else none)
  else if 0 < v.xpos then ({ v with xpos := v.xpos - 1 }, none)
  else (v, some .startOfStream)

/-- The `pc` computation of the `QEMUVCPU.pc` property, as a function
of the sequence and a cursor value: `seq[x].pc` when in range,
otherwise `seq[-1].pc + instr_len(seq[-1].pc)` (the synthetic
past-the-end PC); `none` models the `IndexError` raised by `seq[-1]`
on an empty sequence. -/
def pcAt (banks : List Bank) (seq : List TraceEntry) (x : Nat) : Option Nat :=
  if h : x < seq.length then some (seq.get ⟨x, h⟩).1
  else
    match seq.getLast? with
    | some e => some (e.1 + instrLen banks e.1)
    | none => none

/-- `QEMUVCPU.pc` on a vcpu state. -/
def vcpuPc (banks : List Bank) (v : QEMUVCPU) : Option Nat :=
  pcAt banks v.seq v.xpos

/-- `QEMUVCPU.add_hw_break`: `range(addr, addr+length)` must not be
Python-equal to any stored breakpoint, else `ValueError('Duplicate
breakpoint')`; on success the range is appended. -/
def add_hw_break (v : QEMUVCPU) (addr len : Nat) : Except Unit QEMUVCPU :=
  let rng : PyRange := ⟨addr, addr + len⟩
  if v.hwbreaks.any (fun r => pyRangeEq rng r) then .error ()
  else .ok { v with hwbreaks := v.hwbreaks ++ [rng] }

/-- Python `list.remove`: drop the first element equal (by
`pyRangeEq`) to the target, or `none` when there is none. -/
def removeFirstEq : List PyRange → PyRange → Option (List PyRange)
  | [], _ => none
  | r :: rest, t =>
      if pyRangeEq r t then some rest
      else (removeFirstEq rest t).map (fun l => r :: l)

/-- `QEMUVCPU.del_hw_break`: `list.remove` of the range; a failed
removal raises `ValueError('Non-existent breakpoint')`. -/
def del_hw_break (v : QEMUVCPU) (addr len : Nat) : Except Unit QEMUVCPU :=
  match removeFirstEq v.hwbreaks ⟨addr, addr + len⟩ with
  | some l => .ok { v with hwbreaks := l }
  | none => .error ()

/-! ## `_move_to` -/

/-- Forward half of `QEMUVCPU._move_to`: the first index `pos ≥ _xpos`
with `seq[pos].pc = pc`, or `none` (the `ValueError` path). -/
def moveToF (seq : List TraceEntry) (pcv : Nat) (pos : Nat) : Option Nat :=
  if h : pos < seq.length then
    if (seq.get ⟨pos, h⟩).1 = pcv then some pos
    else moveToF seq pcv (pos + 1)
  else none
termination_by seq.length - pos
decreasing_by simp_wf; omega

/-- Result of the backward half of `_move_to`: found index, the
`ValueError` path, or an uncaught `IndexError` (`seq[pos]` with `pos ≥
len(seq)`, which happens when the loop starts past the end). -/
inductive MoveBack
  | found (i : Nat)
  | notFound
  | ixError
deriving DecidableEq, Repr

/-- Backward half of `QEMUVCPU._move_to`: scan from `pos` down to 0;
`seq[pos]` raises `IndexError` when the initial `pos` is out of
range. -/
def moveToB (seq : List TraceEntry) (pcv : Nat) (pos : Nat) : MoveBack :=
  if h : pos < seq.length then
    if (seq.get ⟨pos, h⟩).1 = pcv then .found pos
    else if pos = 0 then .notFound
    else moveToB seq pcv (pos - 1)
  else .ixError
termination_by pos

/-! ## `cont` -/

/-- Result of one run of the `while True` loop inside `QEMUVCPU.cont`:
the hit flag plus the final cursor, or an uncaught exception (carrying
the cursor at raise time). -/
inductive LoopRes
  | ok (hit : Bool) (xpos : Nat)
  | exn (xpos : Nat)
deriving DecidableEq, Repr

/-- Final cursor of a loop outcome. -/
def LoopRes.pos : LoopRes → Nat
  | .ok _ x => x
  | .exn x => x

/-- First breakpoint test of the loop body: `pc in hwb` for some
stored range (the source returns on the first match). -/
def hitBreak (brks : List PyRange) (pcv : Nat) : Bool :=
  brks.any (fun r => r.containsN pcv)

/-- Forward instance of the `cont` loop: `step(False)` first (which
advances the cursor and breaks out on `EndOfStream`, keeping the
advanced cursor), then the `instruction_length`/`pc` computation
(whose `IndexError` on an empty sequence is uncaught), the
`pc == last_pc` skip, and the breakpoint scan. -/
def contLoopF (banks : List Bank) (brks : List PyRange) (seq : List TraceEntry)
    (x : Nat) (lastPc : Option Nat) : LoopRes :=
  if seq.length ≤ x + 1 then .ok false (x + 1)
  else
    match pcAt banks seq (x + 1) with
    | none => .exn (x + 1)
    | some pcv =>
      if lastPc = some pcv then contLoopF banks brks seq (x + 1) lastPc
      else if hitBreak brks pcv then .ok true (x + 1)
      else contLoopF banks brks seq (x + 1) (some pcv)
termination_by seq.length - x
decreasing_by all_goals simp_wf; omega

/-- Backward instance of the `cont` loop: `step(True)` breaks out on
`StartOfStream` at cursor 0 (leaving the cursor at 0), otherwise
decrements and proceeds as in the forward case. -/
def contLoopB (banks : List Bank) (brks : List PyRange) (seq : List TraceEntry)
    (x : Nat) (lastPc : Option Nat) : LoopRes :=
  if x = 0 then .ok false 0
  else
    match pcAt banks seq (x - 1) with
    | none => .exn (x - 1)
    | some pcv =>
      if lastPc = some pcv then contLoopB banks brks seq (x - 1) lastPc
      else if hitBreak brks pcv then .ok true (x - 1)
      else contLoopB banks brks seq (x - 1) (some pcv)
termination_by x
decreasing_by all_goals simp_wf; omega

/-- Result of `QEMUVCPU.cont`: the returned hit flag with the final
state, or an uncaught exception with the state at raise time. -/
inductive ContRes
  | ok (hit : Bool) (v : QEMUVCPU)
  | exn (v : QEMUVCPU)
deriving DecidableEq, Repr

/-- The vcpu state carried by a `cont` outcome. -/
def ContRes.vcpu : ContRes → QEMUVCPU
  | .ok _ v => v
  | .exn v => v

/-- Map a loop outcome back onto the vcpu object the loop was mutating
(Python mutates `self._xpos` in place; the loop result carries its
final value). -/
def contFromLoop (v : QEMUVCPU) : LoopRes → ContRes
  | .ok hit x => .ok hit { v with xpos := x }
  | .exn x => .exn { v with xpos := x }

/-- `QEMUVCPU.cont`: optionally reposition via `_move_to(addr, not
back)` (a `ValueError` is caught and sets the cursor to `len(seq)`; an
`IndexError` from the backward scan propagates), then run the stepping
loop with `last_pc = None`. -/
def cont (banks : List Bank) (v : QEMUVCPU) (back : Bool) (addr : Option Nat) :
    ContRes :=
  let x1 : Option Nat :=
    match addr with
    | none => some v.xpos
    | some a =>
      if !back then
        match moveToF v.seq a v.xpos with
        | some i => some i
        | none => some v.seq.length
      else
        match moveToB v.seq a v.xpos with
        | .found i => some i
        | .notFound => some v.seq.length
        | .ixError => none
  match x1 with
  | none => .exn v
  | some x1 =>
    contFromLoop v (if back then contLoopB banks v.hwbreaks v.seq x1 none
                    else contLoopF banks v.hwbreaks v.seq x1 none)

/-! ## Wire layer (`QEMUGDBReplay`) -/

/-- `MAX_PACKET_LENGTH` of `QEMUGDBReplay`. -/
def MAX_PACKET_LENGTH : Nat := 4096

/-- Value of a single ASCII hex digit, as accepted by `int(s, 16)`. -/
def hexDigitVal (c : Nat) : Option Nat :=
  if 48 ≤ c ∧ c ≤ 57 then some (c - 48)
  else if 97 ≤ c ∧ c ≤ 102 then some (c - 87)
  else if 65 ≤ c ∧ c ≤ 70 then some (c - 55)
  else none

/-- Python `int(s, 16)` on a byte string of hex digits (`none` models
the `ValueError` on an empty or non-hex string; the whitespace/sign
forms `int` also accepts do not occur in the claims). -/
def parseHexNat (l : List Nat) : Option Nat :=
  if l.isEmpty then none
  else l.foldl (fun acc c => acc.bind (fun a => (hexDigitVal c).map (fun d => a * 16 + d)))
        (some 0)

/-- Outcome of one pass of the frame-extraction part of
`QEMUGDBReplay._serve` once data is buffered: either the buffer does
not yet hold a complete `$...#cc` frame (`pending`), or `int(...,16)`
on the checksum bytes raises (`exn`), or a frame is processed:
`req` is the payload, `ack` the single ack byte sent when ack mode is
on (43 = `+`, 45 = `-`), and `dispatched` tells whether
`_handle_request(req)` is invoked. -/
inductive ServeStep
  | pending
  | exn
  | frame (req : List Nat) (ack : Option Nat) (dispatched : Bool)
deriving DecidableEq, Repr

/-- The frame handling of `QEMUGDBReplay._serve` (lines 590-608): find
`$`, find the following `#`, require two trailing bytes, parse the
checksum, send `-` on mismatch and `+` otherwise (when ack mode is
on), and then call `_handle_request(req)` — the source performs this
call unconditionally, whatever the checksum comparison said. -/
def serveFrame (noAck : Bool) (buf : List Nat) : ServeStep :=
  match buf.findIdx? (fun c => c == 36) with
  | none => .pending
  | some start =>
    match (buf.drop start).findIdx? (fun c => c == 35) with
    | none => .pending
    | some d =>
      let endp := start + d
      if buf.length < endp + 2 then .pending
      else
        let req := (buf.drop (start + 1)).take (endp - (start + 1))
        match parseHexNat ((buf.drop (endp + 1)).take 2) with
        | none => .exn
        | some crc =>
          let ack := if noAck then none
                     else some (if req.foldl (fun a b => a + b) 0 % 256 ≠ crc
                                then 45 else 43)
          .frame req ack true

/-! ### Session state and command handlers -/

/-- The parts of `QEMUGDBReplay.__init__` state the claims touch:
`_thread_id` (initially `None`), the `_vcpus` dict (insertion-ordered
association list keyed by hart id) and the current xlen in bytes. -/
structure Session where
  threadId : Option Int
  vcpus : List (Nat × QEMUVCPU)
  xlen : Nat
deriving DecidableEq, Repr

/-- `QEMUGDBReplay.__init__` with `rv64 = None`: `_thread_id = None`,
no vcpus, xlen 4. -/
def initSession : Session := ⟨none, [], 4⟩

/-- Python dict update `d[k] = v` on the association-list model:
replace in place when the key exists, else append. -/
def assocUpdate (l : List (Nat × QEMUVCPU)) (k : Nat) (v : QEMUVCPU) :
    List (Nat × QEMUVCPU) :=
  match l with
  | [] => [(k, v)]
  | p :: rest => if p.1 = k then (k, v) :: rest else p :: assocUpdate rest k v

/-- One matched trace line inside `QEMUGDBReplay.load`: create the
hart's vcpu on first sight, then `record(pc, func)`. -/
def recordTriple (s : Session) (t : Nat × Nat × Option String) : Session :=
  let cur : QEMUVCPU :=
    match (s.vcpus.find? (fun p => p.1 == t.1)).map (fun p => p.2) with
    | some v => v
    | none => ⟨[], 0, []⟩
  { s with vcpus := assocUpdate s.vcpus t.1 { cur with seq := cur.seq ++ [(t.2.1, t.2.2)] } }

/-- `QEMUGDBReplay.load` over the already-matched trace triples
`(hart, pc, func)` (the regex filtering of non-trace lines is prior to
this): record every triple, fail (`RuntimeError`) when no vcpu was
created, and finally `reset` every vcpu.  `_thread_id` is not
touched. -/
def loadTrace (s : Session) (ts : List (Nat × Nat × Option String)) :
    Except Unit Session :=
  let s' := ts.foldl recordTriple s
  if s'.vcpus.isEmpty then .error ()
  else .ok { s' with vcpus := s'.vcpus.map (fun p => (p.1, reset p.2)) }

/-- `self._vcpus[self._thread_id]`: a dict lookup whose key is the
current `_thread_id`; `None` is never a key, so `_thread_id = None`
yields a `KeyError` (`none`). -/
def lookupThread (s : Session) : Option QEMUVCPU :=
  s.threadId.bind (fun t => (s.vcpus.find? (fun p => (p.1 : Int) == t)).map (fun p => p.2))

/-- Store an updated vcpu back under the current thread id (Python
mutates the object held by the dict in place). -/
def storeThread (s : Session) (v : QEMUVCPU) : Session :=
  match s.threadId with
  | none => s
  | some t => { s with vcpus := s.vcpus.map (fun p => if (p.1 : Int) == t then (p.1, v) else p) }

/-- Lowercase hex digit character. -/
def hexDigitChar (n : Nat) : Char :=
  if n < 10 then Char.ofNat (48 + n) else Char.ofNat (87 + n)

/-- `binascii.hexlify` of one byte. -/
def hexByte (b : Nat) : List Char := [hexDigitChar (b / 16 % 16), hexDigitChar (b % 16)]

/-- `binascii.hexlify` of a byte sequence, decoded to a string. -/
def hexEncode (d : List Nat) : String := String.mk ((d.map hexByte).flatten)

/-- Python `pc.to_bytes(xlen, 'little')`. -/
def toBytesLE (n : Nat) : Nat → List Nat
  | 0 => []
  | l + 1 => n % 256 :: toBytesLE (n / 256) l

/-- The stop reply of `_do_s`/`_do_bs`:
`f'T{sig:02x}{PC_XPOS:02x}:{haddr};'` with `sig = TRAP = 5` and
`PC_XPOS = 32`. -/
def tReplyS (pcv xlen : Nat) : String :=
  String.mk ("T0520:".toList ++ ((toBytesLE pcv xlen).map hexByte).flatten ++ [';'])

/-- `QEMUGDBReplay._do_s`: look the selected vcpu up (a `KeyError`
when `_thread_id` is `None` or unknown — modelled as `.error ()` — is
uncaught and propagates out of `_serve`, crashing the server); with an
empty payload, `step()` forward (an `EndOfStream` `RuntimeError` is
likewise uncaught) and answer with the `T05` stop reply at the new PC;
a non-empty payload answers `E01`. -/
def do_s (banks : List Bank) (s : Session) (payload : List Nat) :
    Except Unit (String × Session) :=
  match lookupThread s with
  | none => .error ()
  | some v =>
    if payload.isEmpty then
      match step v false with
      | (_, some _) => .error ()
      | (v', none) =>
        match vcpuPc banks v' with
        | none => .error ()
        | some pcv => .ok (tReplyS pcv s.xlen, storeThread s v')
    else .ok ("E01", s)

/-- `QEMUGDBReplay._do__z`/`_do_z` after the `int(x,16)` field parse
succeeded and no `;` condition was attached: non-HW kinds answer the
empty (unsupported) reply; otherwise add or remove the breakpoint,
answering `OK` on success and `E02` on the `ValueError`. -/
def do_z_parsed (v : QEMUVCPU) (remove : Bool) (kind addr len : Nat) :
    String × QEMUVCPU :=
  if kind ≠ 1 then ("", v)
  else
    match (if remove then del_hw_break v addr len else add_hw_break v addr len) with
    | .ok v' => ("OK", v')
    | .error _ => ("E02", v)

/-- `QEMUGDBReplay._do_m` after parsing `addr,length`: hex-encode the
bytes, or `E01` on the `IndexError` of an unmapped address. -/
def do_m (banks : List Bank) (addr len : Nat) : String :=
  match memRead banks addr len with
  | .error _ => "E01"
  | .ok d => hexEncode d

/-! ### `qSupported` -/

/-- Python `s.split(';')` (on characters): always at least one field,
`'' → ['']`. -/
def splitSemi : List Char → List (List Char)
  | [] => [[]]
  | c :: rest =>
      let r := splitSemi rest
      if c = ';' then [] :: r
      else
        match r with
        | h :: t => (c :: h) :: t
        | [] => [[c]]

/-- Python `needle in haystack` on strings: contiguous-substring
containment (the empty needle is contained in everything). -/
def listContainsSub (needle : List Char) : List Char → Bool
  | [] => needle.isEmpty
  | c :: rest => needle.isPrefixOf (c :: rest) || listContainsSub needle rest

/-- Python `';'.flatten`. -/
def joinSemi : List (List Char) → List Char
  | [] => []
  | [x] => x
  | x :: y :: rest => x ++ ';' :: joinSemi (y :: rest)

/-- `f'{n:x}'`. -/
def natToHexStr (n : Nat) : List Char := Nat.toDigits 16 n

/-- `QEMUGDBReplay._do_query_supported`: start from
`PacketSize=<MAX_PACKET_LENGTH-16:x>`, `ReverseStep+`,
`ReverseContinue+`, then append every client capability token `cap`
(the `;`-split of the payload) satisfying `cap in ('hwbreak+')` — in
the source that parenthesised expression is the *string* `'hwbreak+'`,
so the test is substring containment, not one-element-tuple
membership — and join with `;`. -/
def do_query_supported (payload : String) : String :=
  let resp : List (List Char) :=
    [("PacketSize=".toList ++ natToHexStr (MAX_PACKET_LENGTH - 16)),
     "ReverseStep+".toList, "ReverseContinue+".toList]
  let caps := (splitSemi payload.toList).filter
      (fun cap => listContainsSub cap "hwbreak+".toList)
  String.mk (joinSemi (resp ++ caps))

/-! ## Supporting lemmas -/

theorem contLoopF_pos_ge (banks : List Bank) (brks : List PyRange) (seq : List TraceEntry)
    (x : Nat) (lastPc : Option Nat) :
    x + 1 ≤ (contLoopF banks brks seq x lastPc).pos := by
  rw [contLoopF]
  split
  · simp only [LoopRes.pos]; omega
  · cases hpc : pcAt banks seq (x + 1) with
    | none => simp only [LoopRes.pos]; omega
    | some pcv =>
      simp only
      split
      · have := contLoopF_pos_ge banks brks seq (x + 1) lastPc
        omega
      · split
        · simp only [LoopRes.pos]; omega
        · have := contLoopF_pos_ge banks brks seq (x + 1) (some pcv)
          omega
termination_by seq.length - x
decreasing_by all_goals simp_wf; omega

theorem contLoopF_pos_le (banks : List Bank) (brks : List PyRange) (seq : List TraceEntry)
    (x : Nat) (lastPc : Option Nat) (h : x < seq.length) :
    (contLoopF banks brks seq x lastPc).pos ≤ seq.length := by
  rw [contLoopF]
  split
  · rename_i hle
    simp only [LoopRes.pos]; omega
  · rename_i hgt
    cases hpc : pcAt banks seq (x + 1) with
    | none => simp only [LoopRes.pos]; omega
    | some pcv =>
      simp only
      split
      · exact contLoopF_pos_le banks brks seq (x + 1) lastPc (by omega)
      · split
        · simp only [LoopRes.pos]; omega
        · exact contLoopF_pos_le banks brks seq (x + 1) (some pcv) (by omega)
termination_by seq.length - x
decreasing_by all_goals simp_wf; omega

theorem contLoopF_pos_of_end (banks : List Bank) (brks : List PyRange) (seq : List TraceEntry)
    (x : Nat) (lastPc : Option Nat) (h : seq.length ≤ x) :
    (contLoopF banks brks seq x lastPc).pos = x + 1 := by
  rw [contLoopF]
  split
  · simp only [LoopRes.pos]
  · omega

theorem contLoopB_pos_le (banks : List Bank) (brks : List PyRange) (seq : List TraceEntry)
    (x : Nat) (lastPc : Option Nat) :
    (contLoopB banks brks seq x lastPc).pos ≤ x := by
  rw [contLoopB]
  split
  · simp only [LoopRes.pos]; omega
  · rename_i hx
    cases hpc : pcAt banks seq (x - 1) with
    | none => simp only [LoopRes.pos]; omega
    | some pcv =>
      simp only
      split
      · have := contLoopB_pos_le banks brks seq (x - 1) lastPc
        omega
      · split
        · simp only [LoopRes.pos]; omega
        · have := contLoopB_pos_le banks brks seq (x - 1) (some pcv)
          omega
termination_by x
decreasing_by all_goals simp_wf; omega

theorem moveToF_spec (seq : List TraceEntry) (pcv : Nat) (pos : Nat) (i : Nat)
    (h : moveToF seq pcv pos = some i) : pos ≤ i ∧ i < seq.length := by
  rw [moveToF] at h
  split at h
  · split at h
    · rename_i hlt _
      cases h
      omega
    · have := moveToF_spec seq pcv (pos + 1) i h
      omega
  · cases h
termination_by seq.length - pos
decreasing_by all_goals simp_wf; omega

theorem moveToB_found_spec (seq : List TraceEntry) (pcv : Nat) (pos : Nat) (i : Nat)
    (h : moveToB seq pcv pos = .found i) : i ≤ pos ∧ i < seq.length := by
  rw [moveToB] at h
  split at h
  · split at h
    · rename_i hlt _
      cases h
      omega
    · split at h
      · cases h
      · have := moveToB_found_spec seq pcv (pos - 1) i h
        omega
  · cases h
termination_by pos

theorem contFromLoop_vcpu_xpos (v : QEMUVCPU) (r : LoopRes) :
    ((contFromLoop v r).vcpu).xpos = r.pos := by
  cases r <;> rfl

theorem contFromLoop_vcpu_seq (v : QEMUVCPU) (r : LoopRes) :
    ((contFromLoop v r).vcpu).seq = v.seq := by
  cases r <;> rfl

theorem contFromLoop_vcpu_hwbreaks (v : QEMUVCPU) (r : LoopRes) :
    ((contFromLoop v r).vcpu).hwbreaks = v.hwbreaks := by
  cases r <;> rfl

theorem cont_vcpu_seq (banks : List Bank) (v : QEMUVCPU) (back : Bool) (addr : Option Nat) :
    ((cont banks v back addr).vcpu).seq = v.seq := by
  unfold cont
  cases addr with
  | none => exact contFromLoop_vcpu_seq v _
  | some a =>
    cases back with
    | false =>
      cases hm : moveToF v.seq a v.xpos with
      | some i => simp only [hm]; exact contFromLoop_vcpu_seq v _
      | none => simp only [hm]; exact contFromLoop_vcpu_seq v _
    | true =>
      cases hm : moveToB v.seq a v.xpos with
      | found i => simp only [hm]; exact contFromLoop_vcpu_seq v _
      | notFound => simp only [hm]; exact contFromLoop_vcpu_seq v _
      | ixError => simp only [hm]; rfl

theorem cont_fwd_none_result (banks : List Bank) (v : QEMUVCPU) :
    ((cont banks v false none).vcpu).xpos =
      (contLoopF banks v.hwbreaks v.seq v.xpos none).pos := by
  show ((contFromLoop v (contLoopF banks v.hwbreaks v.seq v.xpos none)).vcpu).xpos = _
  exact contFromLoop_vcpu_xpos v _

theorem cont_back_none_result (banks : List Bank) (v : QEMUVCPU) :
    ((cont banks v true none).vcpu).xpos =
      (contLoopB banks v.hwbreaks v.seq v.xpos none).pos := by
  show ((contFromLoop v (contLoopB banks v.hwbreaks v.seq v.xpos none)).vcpu).xpos = _
  exact contFromLoop_vcpu_xpos v _

theorem cont_fwd_some_result (banks : List Bank) (v : QEMUVCPU) (a : Nat) :
    ∃ x1, (moveToF v.seq a v.xpos = some x1 ∨
           (moveToF v.seq a v.xpos = none ∧ x1 = v.seq.length)) ∧
      ((cont banks v false (some a)).vcpu).xpos =
        (contLoopF banks v.hwbreaks v.seq x1 none).pos := by
  cases hm : moveToF v.seq a v.xpos with
  | some i =>
    refine ⟨i, Or.inl rfl, ?_⟩
    unfold cont
    simp only [hm]
    exact contFromLoop_vcpu_xpos v _
  | none =>
    refine ⟨v.seq.length, Or.inr ⟨rfl, rfl⟩, ?_⟩
    unfold cont
    simp only [hm]
    exact contFromLoop_vcpu_xpos v _

theorem cont_back_some_result (banks : List Bank) (v : QEMUVCPU) (a : Nat) :
    ((cont banks v true (some a)).vcpu).xpos = v.xpos ∨
    ∃ x1, (moveToB v.seq a v.xpos = .found x1 ∨ x1 = v.seq.length) ∧
      ((cont banks v true (some a)).vcpu).xpos =
        (contLoopB banks v.hwbreaks v.seq x1 none).pos := by
  cases hm : moveToB v.seq a v.xpos with
  | found i =>
    refine Or.inr ⟨i, Or.inl rfl, ?_⟩
    unfold cont
    simp only [hm]
    exact contFromLoop_vcpu_xpos v _
  | notFound =>
    refine Or.inr ⟨v.seq.length, Or.inr rfl, ?_⟩
    unfold cont
    simp only [hm]
    exact contFromLoop_vcpu_xpos v _
  | ixError =>
    refine Or.inl ?_
    unfold cont
    simp only [hm]
    rfl

theorem cont_fwd_pos_ge_of_inv (banks : List Bank) (v : QEMUVCPU) (addr : Option Nat)
    (h : v.xpos ≤ v.seq.length) :
    v.xpos ≤ ((cont banks v false addr).vcpu).xpos := by
  cases addr with
  | none =>
    rw [cont_fwd_none_result]
    have := contLoopF_pos_ge banks v.hwbreaks v.seq v.xpos none
    omega
  | some a =>
    obtain ⟨x1, hx1, heq⟩ := cont_fwd_some_result banks v a
    rw [heq]
    have hge := contLoopF_pos_ge banks v.hwbreaks v.seq x1 none
    rcases hx1 with hfound | ⟨hmiss, rfl⟩
    · have := (moveToF_spec v.seq a v.xpos x1 hfound).1
      omega
    · omega

theorem cont_fwd_pos_le_of_inv (banks : List Bank) (v : QEMUVCPU) (addr : Option Nat)
    (h : v.xpos ≤ v.seq.length) :
    ((cont banks v false addr).vcpu).xpos ≤ v.seq.length + 1 := by
  cases addr with
  | none =>
    rw [cont_fwd_none_result]
    rcases Nat.lt_or_ge v.xpos v.seq.length with hlt | hge
    · have := contLoopF_pos_le banks v.hwbreaks v.seq v.xpos none hlt
      omega
    · have := contLoopF_pos_of_end banks v.hwbreaks v.seq v.xpos none hge
      omega
  | some a =>
    obtain ⟨x1, hx1, heq⟩ := cont_fwd_some_result banks v a
    rw [heq]
    rcases hx1 with hfound | ⟨hmiss, rfl⟩
    · have h2 := (moveToF_spec v.seq a v.xpos x1 hfound).2
      have := contLoopF_pos_le banks v.hwbreaks v.seq x1 none h2
      omega
    · have := contLoopF_pos_of_end banks v.hwbreaks v.seq v.seq.length none (le_refl _)
      omega

theorem cont_fwd_none_pos_le (banks : List Bank) (v : QEMUVCPU)
    (h : v.xpos < v.seq.length) :
    ((cont banks v false none).vcpu).xpos ≤ v.seq.length := by
  rw [cont_fwd_none_result]
  exact contLoopF_pos_le banks v.hwbreaks v.seq v.xpos none h

theorem cont_back_none_pos_le (banks : List Bank) (v : QEMUVCPU) :
    ((cont banks v true none).vcpu).xpos ≤ v.xpos := by
  rw [cont_back_none_result]
  exact contLoopB_pos_le banks v.hwbreaks v.seq v.xpos none

theorem cont_back_pos_le_of_inv (banks : List Bank) (v : QEMUVCPU) (addr : Option Nat)
    (h : v.xpos ≤ v.seq.length) :
    ((cont banks v true addr).vcpu).xpos ≤ v.seq.length := by
  cases addr with
  | none =>
    have := cont_back_none_pos_le banks v
    omega
  | some a =>
    rcases cont_back_some_result banks v a with heq | ⟨x1, hx1, heq⟩
    · omega
    · rw [heq]
      have hle := contLoopB_pos_le banks v.hwbreaks v.seq x1 none
      rcases hx1 with hfound | rfl
      · have := (moveToB_found_spec v.seq a v.xpos x1 hfound).1
        omega
      · omega

theorem step_fwd_eq (v : QEMUVCPU) :
    step v false = ({ v with xpos := v.xpos + 1 },
      if v.seq.length ≤ v.xpos + 1 then some .endOfStream else none) := rfl

theorem step_back_eq_pos (v : QEMUVCPU) (h : 0 < v.xpos) :
    step v true = ({ v with xpos := v.xpos - 1 }, none) := by
  rw [step]
  simp [h]

theorem step_back_eq_zero (v : QEMUVCPU) (h : v.xpos = 0) :
    step v true = (v, some .startOfStream) := by
  rw [step]
  simp [h]


theorem pyRangeEq_iff (a b : PyRange) :
    pyRangeEq a b = true ↔
      ((a.rstop ≤ a.rstart ∧ b.rstop ≤ b.rstart) ∨
       (¬ a.rstop ≤ a.rstart ∧ ¬ b.rstop ≤ b.rstart ∧
        a.rstart = b.rstart ∧ a.rstop = b.rstop)) := by
  unfold pyRangeEq
  split
  · simp_all
  · simp_all
    omega

theorem pyRangeEq_symm (a b : PyRange) : pyRangeEq a b = pyRangeEq b a := by
  rw [Bool.eq_iff_iff, pyRangeEq_iff, pyRangeEq_iff]
  constructor
  · rintro (⟨x, y⟩ | ⟨x, y, z, w⟩)
    · exact Or.inl ⟨y, x⟩
    · exact Or.inr ⟨y, x, z.symm, w.symm⟩
  · rintro (⟨x, y⟩ | ⟨x, y, z, w⟩)
    · exact Or.inl ⟨y, x⟩
    · exact Or.inr ⟨y, x, z.symm, w.symm⟩

theorem pyRangeEq_of_pos (addr len : Nat) (hl : 0 < len) (r : PyRange) :
    (pyRangeEq ⟨addr, addr + len⟩ r = true ↔ r = ⟨addr, addr + len⟩) := by
  rw [pyRangeEq_iff]
  cases r with
  | mk s e =>
    simp only [PyRange.mk.injEq]
    constructor
    · rintro (⟨x, y⟩ | ⟨x, y, z, w⟩)
      · omega
      · exact ⟨z.symm, w.symm⟩
    · rintro ⟨rfl, rfl⟩
      exact Or.inr ⟨by omega, by omega, rfl, rfl⟩

theorem add_hw_break_error_iff (v : QEMUVCPU) (addr len : Nat) :
    add_hw_break v addr len = .error () ↔
      v.hwbreaks.any (fun r => pyRangeEq ⟨addr, addr + len⟩ r) = true := by
  unfold add_hw_break
  dsimp only
  split <;> simp_all

theorem removeFirstEq_none_iff (l : List PyRange) (t : PyRange) :
    removeFirstEq l t = none ↔ ∀ r ∈ l, pyRangeEq r t = false := by
  induction l with
  | nil => simp [removeFirstEq]
  | cons r rest ih =>
    by_cases h : pyRangeEq r t = true
    · simp [removeFirstEq, h]
    · have hb : pyRangeEq r t = false := by
        revert h
        cases pyRangeEq r t <;> simp
      simp [removeFirstEq, hb, ih]

theorem del_hw_break_error_iff (v : QEMUVCPU) (addr len : Nat) :
    del_hw_break v addr len = .error () ↔
      ∀ r ∈ v.hwbreaks, pyRangeEq r ⟨addr, addr + len⟩ = false := by
  rw [← removeFirstEq_none_iff]
  unfold del_hw_break
  cases hrm : removeFirstEq v.hwbreaks ⟨addr, addr + len⟩ <;> simp [hrm]


theorem bankContainsN_iff (b : Bank) (x : Nat) :
    ((bankRange b).containsN x = true) ↔ bankContains b x := by
  simp [PyRange.containsN, bankRange, bankContains]

theorem memRead_error_iff (banks : List Bank) (addr n : Nat) :
    memRead banks addr n = .error () ↔ ∀ b ∈ banks, ¬ bankContains b addr := by
  unfold memRead
  cases hf : banks.find? (fun b => (bankRange b).containsN addr) with
  | none =>
    simp only
    constructor
    · intro _ b hb
      have hnp := List.find?_eq_none.mp hf b hb
      simpa [bankContainsN_iff] using hnp
    · intro _
      trivial
  | some b =>
    have hmem := List.mem_of_find?_eq_some hf
    have hpb0 := List.find?_some hf
    have hpred := (bankContainsN_iff b addr).mp (by exact hpb0)
    simp only
    constructor
    · intro h
      exact Except.noConfusion h
    · intro hall
      exact absurd hpred (hall b hmem)

theorem memRead_ok_spec (addr n : Nat) :
    ∀ banks : List Bank, banksDisjoint banks → ∀ out, memRead banks addr n = .ok out →
      out.length ≤ n ∧ ∃ b, b ∈ banks ∧ bankContains b addr ∧
        out = (b.2.drop (addr - b.1)).take n ∧
        ∀ b', b' ∈ banks → bankContains b' addr → b' = b := by
  intro banks
  induction banks with
  | nil =>
    intro _ out h
    exact absurd h (by simp [memRead])
  | cons b bs ih =>
    intro hd out h
    rw [banksDisjoint, List.pairwise_cons] at hd
    obtain ⟨hdis, htail⟩ := hd
    by_cases hb : bankContains b addr
    · have hfind0 : List.find? (fun bb : Bank => (bankRange bb).containsN addr) (b :: bs) =
          some b := by
        apply List.find?_cons_of_pos
        exact (bankContainsN_iff b addr).mpr hb
      have hfind : memRead (b :: bs) addr n = .ok ((b.2.drop (addr - b.1)).take n) := by
        unfold memRead
        rw [hfind0]
      rw [hfind] at h
      cases h
      refine ⟨?_, b, List.mem_cons_self b bs, hb, rfl, ?_⟩
      · exact List.length_take_le n _
      · intro b' hb' hcont
        rcases List.mem_cons.mp hb' with rfl | hmem
        · rfl
        · exact absurd ⟨hb, hcont⟩ (hdis b' hmem addr)
    · have hfind0 : List.find? (fun bb : Bank => (bankRange bb).containsN addr) (b :: bs) =
          List.find? (fun bb : Bank => (bankRange bb).containsN addr) bs := by
        apply List.find?_cons_of_neg
        simpa [bankContainsN_iff] using hb
      have hfind : memRead (b :: bs) addr n = memRead bs addr n := by
        unfold memRead
        rw [hfind0]
      rw [hfind] at h
      obtain ⟨hlen, b0, hb0mem, hb0c, hout, huniq⟩ := ih htail out h
      refine ⟨hlen, b0, List.mem_cons_of_mem b hb0mem, hb0c, hout, ?_⟩
      intro b' hb' hcont
      rcases List.mem_cons.mp hb' with rfl | hmem
      · exact absurd hcont hb
      · exact huniq b' hmem hcont

/-! ## Claim theorems -/

/-- C1 (amended): a forward `step` fails with `EndOfStream` exactly when
the incremented cursor would reach or exceed `len(seq)` (not only when it
would strictly exceed it); the cursor is always advanced by one, so the
failing step from `cursor = len(seq)-1` still leaves the hart at the
virtual end position `cursor = len(seq)`, and for any `0 < k < len(seq)`
a forward step followed by a backward step restores the cursor. -/
theorem C1_step_forward_boundary (v : QEMUVCPU) :
    ((step v false).2 = some .endOfStream ↔ v.seq.length ≤ v.xpos + 1) ∧
    (step v false).1.xpos = v.xpos + 1 ∧
    (v.xpos + 1 = v.seq.length → (step v false).1.xpos = v.seq.length) ∧
    (0 < v.xpos → v.xpos < v.seq.length →
      (step (step v false).1 true).1.xpos = v.xpos) := by
  refine ⟨?_, rfl, ?_, ?_⟩
  · show (if v.seq.length ≤ v.xpos + 1 then some StepErr.endOfStream else none) =
        some StepErr.endOfStream ↔ _
    split <;> simp_all
  · intro h
    show v.xpos + 1 = v.seq.length
    omega
  · intro h0 hlt
    have h1 : (step v false).1 = { v with xpos := v.xpos + 1 } := rfl
    rw [h1, step_back_eq_pos _ (Nat.succ_pos v.xpos)]
    show v.xpos + 1 - 1 = v.xpos
    omega

/-- C1 counterexample: on a two-entry trace with `cursor = len(seq)-1 = 1`,
the forward step does not succeed as the claim states: it raises
`EndOfStream` (the code tests `new cursor >= len(seq)`, not `>`). -/
theorem C1_counterexample :
    (⟨[(4096, none), (4098, none)], 1, []⟩ : QEMUVCPU).xpos + 1 =
      (⟨[(4096, none), (4098, none)], 1, []⟩ : QEMUVCPU).seq.length ∧
    (step ⟨[(4096, none), (4098, none)], 1, []⟩ false).2 = some .endOfStream :=
  ⟨rfl, rfl⟩

/-- C1 witness: the amended restore property evaluated on a concrete
two-entry trace at cursor 1. -/
theorem C1_step_forward_boundary_witness :
    (step (step (⟨[(4096, none), (4098, none)], 1, []⟩ : QEMUVCPU) false).1 true).1.xpos = 1 :=
  (C1_step_forward_boundary ⟨[(4096, none), (4098, none)], 1, []⟩).2.2.2 (by decide) (by decide)

/-- C2 (code bug): for the concrete frame `$g#00` received with ack mode
on, the payload checksum `0x67` differs from the declared `0x00`, the
framer emits `-` (byte 45) — and nevertheless still dispatches the
frame to `_handle_request` (`dispatched = true`), because the source
calls the handler unconditionally after the ack.  The claim (frame
dropped without dispatch) is the evident intent of the protocol; the
code is wrong. -/
theorem C2_bad_checksum_still_dispatched :
    serveFrame false [36, 103, 35, 48, 48] = .frame [103] (some 45) true ∧
    List.foldl (fun a b => a + b) 0 [103] % 256 ≠ 0 :=
  ⟨rfl, by decide⟩

/-- C3 (amended): starting from any state with `cursor ≤ len(seq)`,
`reset`, backward `step` and backward `cont` (with or without resume
address) keep `0 ≤ cursor ≤ len(seq)`, but the forward operations only
keep `0 ≤ cursor ≤ len(seq)+1`, and the upper bound is attained: a
forward step from `cursor = len(seq)` yields `len(seq)+1`, so
`0 ≤ cursor ≤ len(seq)` is not an invariant of the forward operations. -/
theorem C3_cursor_bounds (banks : List Bank) (v : QEMUVCPU) (addr : Option Nat)
    (h : v.xpos ≤ v.seq.length) :
    (reset v).xpos ≤ v.seq.length ∧
    (step v true).1.xpos ≤ v.seq.length ∧
    (step v false).1.xpos ≤ v.seq.length + 1 ∧
    (v.xpos = v.seq.length → (step v false).1.xpos = v.seq.length + 1) ∧
    ((cont banks v true addr).vcpu).xpos ≤ v.seq.length ∧
    ((cont banks v false addr).vcpu).xpos ≤ v.seq.length + 1 := by
  refine ⟨Nat.zero_le _, ?_, ?_, ?_,
          cont_back_pos_le_of_inv banks v addr h,
          cont_fwd_pos_le_of_inv banks v addr h⟩
  · by_cases h0 : 0 < v.xpos
    · rw [step_back_eq_pos v h0]
      show v.xpos - 1 ≤ v.seq.length
      omega
    · rw [step_back_eq_zero v (by omega)]
      show v.xpos ≤ v.seq.length
      omega
  · rw [step_fwd_eq]
    show v.xpos + 1 ≤ v.seq.length + 1
    omega
  · intro he
    rw [step_fwd_eq]
    show v.xpos + 1 = v.seq.length + 1
    omega

/-- C3 counterexample: from the invariant-satisfying state `cursor =
len(seq) = 1`, a forward step leaves `cursor = 2 > len(seq)`,
violating the claimed invariant. -/
theorem C3_counterexample :
    (⟨[(4096, none)], 1, []⟩ : QEMUVCPU).xpos ≤
      (⟨[(4096, none)], 1, []⟩ : QEMUVCPU).seq.length ∧
    (step ⟨[(4096, none)], 1, []⟩ false).1.xpos = 2 ∧
    (⟨[(4096, none)], 1, []⟩ : QEMUVCPU).seq.length = 1 :=
  ⟨by decide, rfl, rfl⟩

/-- C3 witness: the forward-cont bound evaluated on a concrete
one-entry trace. -/
theorem C3_cursor_bounds_witness :
    ((cont [] (⟨[(4096, none)], 0, []⟩ : QEMUVCPU) false none).vcpu).xpos ≤
      (⟨[(4096, none)], 0, []⟩ : QEMUVCPU).seq.length + 1 :=
  (C3_cursor_bounds [] ⟨[(4096, none)], 0, []⟩ none (by decide)).2.2.2.2.2

/-- C4 (code bug): after a successful trace load the selected thread id
is still `None` (nothing defaults it to the smallest hart id), and a
bare `s` command then hits the dict lookup `self._vcpus[None]`, which
raises an uncaught `KeyError` (modelled `.error ()`) instead of
producing the claimed normal reply. -/
theorem C4_step_before_thread_select_keyerror :
    (loadTrace initSession [(0, 4096, some "f"), (0, 4098, some "f")]).map
        (fun s => (s.threadId, do_s [] s [])) = .ok (none, .error ()) := rfl

/-- C5 (code bug): `qSupported:break` is answered with
`PacketSize=ff0;ReverseStep+;ReverseContinue+;break`: the token
`break`, which is not the exact capability `hwbreak+`, is echoed as
supported, because `cap in ('hwbreak+')` is a substring test against
the string `'hwbreak+'` (one-element-tuple comma missing). -/
theorem C5_qsupported_substring_echo :
    do_query_supported "break" =
      "PacketSize=ff0;ReverseStep+;ReverseContinue+;break" ∧
    ("break" : String) ≠ "hwbreak+" :=
  ⟨rfl, by decide⟩

/-- C6 (amended): `add_hw_break` fails with `Duplicate` iff some active
breakpoint range is Python-range-equal to `range(addr, addr+len)`, and
`del_hw_break` fails with `Missing` iff none is; for `len > 0` this
coincides with the claimed identical-`(addr,len)` test, but all empty
ranges are Python-equal, so for `len = 0` breakpoints at distinct
addresses are treated as duplicates; over the wire failures surface as
`E02` and successes as `OK`. -/
theorem C6_breakpoint_range_equality (v : QEMUVCPU) (addr len : Nat) :
    ((add_hw_break v addr len = .error ()) ↔
       ∃ r ∈ v.hwbreaks, pyRangeEq ⟨addr, addr + len⟩ r = true) ∧
    ((del_hw_break v addr len = .error ()) ↔
       ¬ ∃ r ∈ v.hwbreaks, pyRangeEq ⟨addr, addr + len⟩ r = true) ∧
    (0 < len → ((add_hw_break v addr len = .error ()) ↔
       (⟨addr, addr + len⟩ : PyRange) ∈ v.hwbreaks)) ∧
    ((add_hw_break v addr len = .error ()) →
       do_z_parsed v false 1 addr len = ("E02", v)) ∧
    (∀ v', add_hw_break v addr len = .ok v' →
       do_z_parsed v false 1 addr len = ("OK", v')) ∧
    ((del_hw_break v addr len = .error ()) →
       do_z_parsed v true 1 addr len = ("E02", v)) ∧
    (∀ v', del_hw_break v addr len = .ok v' →
       do_z_parsed v true 1 addr len = ("OK", v')) := by
  have hadd : (add_hw_break v addr len = .error ()) ↔
      ∃ r ∈ v.hwbreaks, pyRangeEq ⟨addr, addr + len⟩ r = true := by
    rw [add_hw_break_error_iff, List.any_eq_true]
  have hdel : (del_hw_break v addr len = .error ()) ↔
      ¬ ∃ r ∈ v.hwbreaks, pyRangeEq ⟨addr, addr + len⟩ r = true := by
    rw [del_hw_break_error_iff]
    constructor
    · rintro hall ⟨r, hr, hEq⟩
      have hfalse := hall r hr
      rw [pyRangeEq_symm] at hfalse
      rw [hfalse] at hEq
      exact Bool.noConfusion hEq
    · intro hne r hr
      by_contra hcon
      apply hne
      refine ⟨r, hr, ?_⟩
      rw [pyRangeEq_symm]
      revert hcon
      cases pyRangeEq r ⟨addr, addr + len⟩ <;> simp
  refine ⟨hadd, hdel, ?_, ?_, ?_, ?_, ?_⟩
  · intro hl
    rw [hadd]
    constructor
    · rintro ⟨r, hr, hEq⟩
      rw [pyRangeEq_of_pos addr len hl r] at hEq
      exact hEq ▸ hr
    · intro hmem
      exact ⟨_, hmem, (pyRangeEq_of_pos addr len hl _).mpr rfl⟩
  · intro h
    unfold do_z_parsed
    simp [h]
  · intro v' h
    unfold do_z_parsed
    simp [h]
  · intro h
    unfold do_z_parsed
    simp [h]
  · intro v' h
    unfold do_z_parsed
    simp [h]

/-- C6 counterexample: with the zero-length breakpoint `(addr,len) =
(1,0)` active, adding `(2,0)` fails with `Duplicate` even though no
breakpoint with the identical pair `(2,0)` (range `[2,2)`) is active:
Python's `range(2,2) == range(1,1)` holds because both are empty. -/
theorem C6_counterexample :
    add_hw_break ⟨[], 0, [⟨1, 1⟩]⟩ 2 0 = .error () ∧
    ¬ ((⟨2, 2⟩ : PyRange) ∈ (⟨[], 0, [⟨1, 1⟩]⟩ : QEMUVCPU).hwbreaks) :=
  ⟨rfl, by decide⟩

/-- C6 witness: the positive-length duplicate test evaluated on a
concrete breakpoint list. -/
theorem C6_breakpoint_range_equality_witness :
    (add_hw_break (⟨[], 0, [⟨4096, 4100⟩]⟩ : QEMUVCPU) 4096 4 = .error ()) ↔
      (⟨4096, 4100⟩ : PyRange) ∈ (⟨[], 0, [⟨4096, 4100⟩]⟩ : QEMUVCPU).hwbreaks :=
  (C6_breakpoint_range_equality ⟨[], 0, [⟨4096, 4100⟩]⟩ 4096 4).2.2.1 (by decide)

/-- C7 (amended): starting from `cursor ≤ len(seq)`, forward `cont`
never decreases the cursor and backward `cont` without a resume address
never increases it; backward `cont` never moves the cursor above
`len(seq)` (or below 0), but forward `cont` can reach `len(seq)+1`
(it stays within `len(seq)+1` always, and within `len(seq)` when
started below the end without a resume address).  A backward resume
address that is not found repositions the cursor to `len(seq)`, which
can increase it. -/
theorem C7_cont_monotonicity (banks : List Bank) (v : QEMUVCPU) (addr : Option Nat)
    (h : v.xpos ≤ v.seq.length) :
    v.xpos ≤ ((cont banks v false addr).vcpu).xpos ∧
    ((cont banks v false addr).vcpu).xpos ≤ v.seq.length + 1 ∧
    ((cont banks v true none).vcpu).xpos ≤ v.xpos ∧
    ((cont banks v true addr).vcpu).xpos ≤ v.seq.length ∧
    (v.xpos < v.seq.length → ((cont banks v false none).vcpu).xpos ≤ v.seq.length) :=
  ⟨cont_fwd_pos_ge_of_inv banks v addr h,
   cont_fwd_pos_le_of_inv banks v addr h,
   cont_back_none_pos_le banks v,
   cont_back_pos_le_of_inv banks v addr h,
   fun hlt => cont_fwd_none_pos_le banks v hlt⟩

/-- C7 counterexample: `cont(false, addr)` with an address absent from
the trace sets the cursor to `len(seq)` and then steps once more, ending
at `cursor = 2 = len(seq)+1`, past the boundary `len(seq) = 1` that the
claim says is never exceeded. -/
theorem C7_counterexample :
    ((cont [] (⟨[(4096, none)], 0, []⟩ : QEMUVCPU) false (some 8192)).vcpu).xpos = 2 ∧
    (⟨[(4096, none)], 0, []⟩ : QEMUVCPU).seq.length = 1 := by
  constructor
  · have hm : moveToF [(4096, none)] 8192 0 = none := by
      rw [moveToF]
      norm_num
      rw [moveToF]
      norm_num
    have hl : contLoopF [] [] [(4096, none)] 1 none = .ok false 2 := by
      rw [contLoopF]
      norm_num
    unfold cont
    simp only [hm]
    norm_num [hl, contFromLoop, ContRes.vcpu]
  · rfl

/-- C7 witness: forward-cont monotonicity evaluated on a concrete
one-entry trace with a resume address. -/
theorem C7_cont_monotonicity_witness :
    (⟨[(4096, none)], 0, []⟩ : QEMUVCPU).xpos ≤
      ((cont [] (⟨[(4096, none)], 0, []⟩ : QEMUVCPU) false (some 4096)).vcpu).xpos :=
  (C7_cont_monotonicity [] ⟨[(4096, none)], 0, []⟩ (some 4096) (by decide)).1

/-- C8 (confirmed): when `read(pc, 4)` succeeds with 4 bytes whose
little-endian value has low two bits `00`, `instr_len` returns 2; when
the low bits are non-zero it returns 4; and when `pc` is unmapped
(`read` raises `IndexError`) it returns the default 4 — `instrLen` is a
total function, so no error propagates to the caller. -/
theorem C8_instruction_length (banks : List Bank) (pc : Nat) :
    (∀ bs, memRead banks pc 4 = .ok bs → bs.length = 4 →
      ((intFromBytesLE bs % 4 = 0 → instrLen banks pc = 2) ∧
       (intFromBytesLE bs % 4 ≠ 0 → instrLen banks pc = 4))) ∧
    (memRead banks pc 4 = .error () → instrLen banks pc = 4) := by
  constructor
  · intro bs hok _
    constructor
    · intro h0
      unfold instrLen
      rw [hok]
      simp [h0]
    · intro h0
      unfold instrLen
      rw [hok]
      simp [h0]
  · intro he
    unfold instrLen
    rw [he]

/-- C8 witness: instruction lengths evaluated on a concrete mapped word
with low bits `00` and on an unmapped address. -/
theorem C8_instruction_length_witness :
    instrLen [(4096, [4, 0, 0, 0])] 4096 = 2 ∧ instrLen [] 0 = 4 :=
  ⟨((C8_instruction_length [(4096, [4, 0, 0, 0])] 4096).1 [4, 0, 0, 0] rfl rfl).1 (by decide),
   (C8_instruction_length [] 0).2 rfl⟩

/-- C9 (confirmed): with pairwise non-overlapping banks, a successful
`read(addr, n)` returns at most `n` bytes equal to
`bytes[addr-base : addr-base+n]` of the unique bank containing `addr`,
it fails with `NotMapped` iff no bank contains `addr`, and the `m`
command surfaces that failure as `E01` (and hex-encodes the bytes
otherwise).  `read` is a pure function of the bank list, mirroring the
source, which never assigns to `_banks`. -/
theorem C9_memory_read (banks : List Bank) (addr n : Nat) (hd : banksDisjoint banks) :
    (∀ out, memRead banks addr n = .ok out →
      out.length ≤ n ∧ ∃ b, b ∈ banks ∧ bankContains b addr ∧
        out = (b.2.drop (addr - b.1)).take n ∧
        ∀ b', b' ∈ banks → bankContains b' addr → b' = b) ∧
    (memRead banks addr n = .error () ↔ ∀ b ∈ banks, ¬ bankContains b addr) ∧
    (memRead banks addr n = .error () → do_m banks addr n = "E01") ∧
    (∀ out, memRead banks addr n = .ok out → do_m banks addr n = hexEncode out) := by
  refine ⟨fun out h => memRead_ok_spec addr n banks hd out h,
          memRead_error_iff banks addr n, ?_, ?_⟩
  · intro he
    unfold do_m
    rw [he]
  · intro out h
    unfold do_m
    rw [h]

/-- C9 witness: the not-mapped characterisation evaluated on a concrete
single-bank memory map. -/
theorem C9_memory_read_witness :
    memRead [((4096 : Nat), [1, 2, 3])] 5000 1 = .error () ↔
      ∀ b ∈ [((4096 : Nat), ([1, 2, 3] : List Nat))], ¬ bankContains b 5000 :=
  (C9_memory_read [(4096, [1, 2, 3])] 5000 1 (by simp [banksDisjoint])).2.1

/-- C10 (confirmed): a failing forward step has already advanced the
cursor by one when `EndOfStream` is raised, while a failing backward
step happens only at `cursor = 0` and leaves the state unchanged. -/
theorem C10_step_failure_atomicity (v : QEMUVCPU) :
    ((step v false).2 = some .endOfStream → (step v false).1.xpos = v.xpos + 1) ∧
    ((step v true).2 = some .startOfStream → v.xpos = 0 ∧ (step v true).1 = v) := by
  constructor
  · intro _
    rfl
  · intro hb
    by_cases h0 : 0 < v.xpos
    · exfalso
      rw [step_back_eq_pos v h0] at hb
      exact Option.noConfusion hb
    · have hz : v.xpos = 0 := by omega
      rw [step_back_eq_zero v hz]
      exact ⟨hz, rfl⟩

/-- C10 witness: the backward failure evaluated at cursor 0 on a
concrete one-entry trace. -/
theorem C10_step_failure_atomicity_witness :
    (step (⟨[(4096, none)], 0, []⟩ : QEMUVCPU) true).1 = ⟨[(4096, none)], 0, []⟩ :=
  ((C10_step_failure_atomicity ⟨[(4096, none)], 0, []⟩).2 rfl).2

end GdbReplay
